import Mathlib

/-!
# Verification of the DNS-Query-Tool core

A shallow embedding, in Lean 4, of the core of the DNS-Query-Tool repository:
the DNS wire-format codec (`src/packet_builder.py`, `src/packet_parser.py`),
the TTL cache (`src/cache_manager.py`) and the resolver (`src/dns_client.py`),
together with theorems settling the specification claims about them.

Conventions:
* Python `bytes` values are `List Nat` (each element a byte value).
* Python strings that originate from packet bytes (domain names, record data)
  are `List Nat` of character codes; fixed status/type strings are `String`.
* Python loops that may not terminate on adversarial input (the name
  decompression loop) are embedded with an explicit fuel parameter; the
  outcome `out` means the fuel was exhausted, i.e. the loop ran that many
  iterations without terminating.
* `time.time()` is an explicit `now : Int` argument; Python exceptions are
  explicit error results.
-/

namespace DNSQueryTool

/-! ## Byte-level helpers -/

/-- A network packet: a list of byte values. -/
abbrev Packet := List Nat

/-- `pkt[i]` for an index known to be in range (defaults to `0` out of range). -/
def byteAt (pkt : Packet) (i : Nat) : Nat := pkt.getD i 0

/-- `struct.unpack('!H', pkt[off:off+2])`: big-endian 16-bit read.  `none`
models the `struct.error` raised when fewer than two bytes remain. -/
def get16 (pkt : Packet) (off : Nat) : Option Nat :=
  if off + 2 ≤ pkt.length then some (byteAt pkt off * 256 + byteAt pkt (off + 1)) else none

/-- `struct.unpack('!I', ...)`: big-endian 32-bit read (in-range use only). -/
def get32at (pkt : Packet) (off : Nat) : Nat :=
  ((byteAt pkt off * 256 + byteAt pkt (off + 1)) * 256 + byteAt pkt (off + 2)) * 256
    + byteAt pkt (off + 3)

/-- `bytes.decode('ascii', errors='ignore')`: non-ASCII bytes are dropped. -/
def asciiIgnore (bs : List Nat) : List Nat := bs.filter (· < 128)

/-- Exceptions raised by `DNSPacketParser`. -/
inductive PErr where
  | tooShort
  | idMismatch
  | structError
  deriving DecidableEq, Repr

/-- Outcome of running an embedded piece of the parser under a fuel bound:
a value, a Python exception, or fuel exhaustion (non-termination). -/
inductive PRes (α : Type) where
  | ok (val : α)
  | exn (e : PErr)
  | out
  deriving DecidableEq, Repr

/-! ## `DNSPacketParser._parse_domain_name`

The `while True` loop of `_parse_domain_name`, one fuel unit per iteration.
State: current `offset`, `jumped`/`original_offset` (merged into one
`Option Nat`, holding `original_offset` once a pointer has been followed),
and the reversed list of labels accumulated so far. -/

def parseNameAux (pkt : Packet) : Nat → Nat → Option Nat → List (List Nat) →
    PRes (List (List Nat) × Nat)
  | 0, _, _, _ => .out
  | fuel + 1, off, jumped, acc =>
    if pkt.length ≤ off then
      .ok (acc.reverse, jumped.getD off)
    else
      let len := byteAt pkt off
      if len &&& 0xC0 = 0xC0 then
        match get16 pkt off with
        | none => .exn .structError
        | some w => parseNameAux pkt fuel (w &&& 0x3FFF) (some (jumped.getD (off + 2))) acc
      else if len = 0 then
        .ok (acc.reverse, jumped.getD (off + 1))
      else if pkt.length < off + 1 + len then
        .ok (acc.reverse, jumped.getD (off + 1))
      else
        parseNameAux pkt fuel (off + 1 + len) jumped
          (asciiIgnore ((pkt.drop (off + 1)).take len) :: acc)

/-- `'.'.join(labels) if labels else '.'` (char code 46 is `'.'`). -/
def joinName (labels : List (List Nat)) : List Nat :=
  if labels.isEmpty then [46] else List.intercalate [46] labels

/-- `DNSPacketParser._parse_domain_name(packet, offset)` under a fuel bound:
returns the decoded name and the offset at which the caller resumes. -/
def parseDomainName (pkt : Packet) (off fuel : Nat) : PRes (List Nat × Nat) :=
  match parseNameAux pkt fuel off none [] with
  | .ok (labels, fo) => .ok (joinName labels, fo)
  | .exn e => .exn e
  | .out => .out

/-! ## `DNSPacketParser._parse_header` and the status mapping -/

/-- The six 16-bit header fields of a DNS message. -/
structure Header where
  id : Nat
  flags : Nat
  qdcount : Nat
  ancount : Nat
  nscount : Nat
  arcount : Nat
  deriving DecidableEq, Repr

/-- Flag bit accessors computed in `_parse_header`. -/
def hqr (flags : Nat) : Nat := (flags >>> 15) &&& 1

def hopcode (flags : Nat) : Nat := (flags >>> 11) &&& 15

def haa (flags : Nat) : Nat := (flags >>> 10) &&& 1

def htc (flags : Nat) : Nat := (flags >>> 9) &&& 1

def hrd (flags : Nat) : Nat := (flags >>> 8) &&& 1

def hra (flags : Nat) : Nat := (flags >>> 7) &&& 1

def hrcode (flags : Nat) : Nat := flags &&& 15

/-- `_parse_header(packet, 0, ...)` on a packet of at least 12 bytes:
six big-endian 16-bit reads.  (The caller guarantees the length.) -/
def parseHeader (pkt : Packet) : Header :=
  { id := byteAt pkt 0 * 256 + byteAt pkt 1
    flags := byteAt pkt 2 * 256 + byteAt pkt 3
    qdcount := byteAt pkt 4 * 256 + byteAt pkt 5
    ancount := byteAt pkt 6 * 256 + byteAt pkt 7
    nscount := byteAt pkt 8 * 256 + byteAt pkt 9
    arcount := byteAt pkt 10 * 256 + byteAt pkt 11 }

/-- `RESPONSE_CODES.get(rcode, f'UNKNOWN({rcode}')`.  Note the source's
f-string is missing the closing parenthesis, so the fallback string is
`UNKNOWN(<code>` with no `)` at the end. -/
def statusOf (rcode : Nat) : String :=
  if rcode = 0 then "NOERROR"
  else if rcode = 1 then "FORMERR"
  else if rcode = 2 then "SERVFAIL"
  else if rcode = 3 then "NXDOMAIN"
  else if rcode = 4 then "NOTIMP"
  else if rcode = 5 then "REFUSED"
  else "UNKNOWN(" ++ toString rcode

/-- `RECORD_TYPES.get(t, f'TYPE{t}')` (parser direction). -/
def recordTypeName (t : Nat) : String :=
  if t = 1 then "A"
  else if t = 2 then "NS"
  else if t = 5 then "CNAME"
  else if t = 12 then "PTR"
  else if t = 15 then "MX"
  else if t = 16 then "TXT"
  else if t = 28 then "AAAA"
  else "TYPE" ++ toString t

/-! ## `DNSPacketParser._parse_record_data` -/

/-- ASCII decimal digits of `n` (as a list of character codes). -/
def natDecimal (n : Nat) : List Nat := (Nat.toDigits 10 n).map Char.toNat

/-- ASCII lowercase hex digits of `n` (as a list of character codes). -/
def natHex (n : Nat) : List Nat := (Nat.toDigits 16 n).map Char.toNat

/-- Character codes of a fixed string. -/
def strCodes (s : String) : List Nat := s.toList.map Char.toNat

/-- One byte as two lowercase hex digits. -/
def byteHex (b : Nat) : List Nat :=
  [if b / 16 < 10 then 48 + b / 16 else 87 + b / 16,
   if b % 16 < 10 then 48 + b % 16 else 87 + b % 16]

/-- `bytes.hex()`: lowercase hex dump. -/
def hexDump (bs : List Nat) : List Nat := (bs.map byteHex).flatten

/-- `socket.inet_ntoa`: dotted-quad text of 4 bytes. -/
def dottedQuad (bs : List Nat) : List Nat := List.intercalate [46] (bs.map natDecimal)

/-- The eight 16-bit groups of a 16-byte IPv6 address. -/
def ipv6Groups (bs : List Nat) : List Nat :=
  (List.range 8).map (fun i => byteAt bs (2 * i) * 256 + byteAt bs (2 * i + 1))

/-- Length of the run of zero groups starting at index `i`. -/
def zeroRunAt (gs : List Nat) (i : Nat) : Nat := ((gs.drop i).takeWhile (· == 0)).length

/-- Leftmost-longest run of at least two zero groups, as (start, length). -/
def bestZeroRun (gs : List Nat) : Option (Nat × Nat) :=
  (List.range gs.length).foldl
    (fun best i =>
      let l := zeroRunAt gs i
      match best with
      | none => if 2 ≤ l then some (i, l) else none
      | some q => if q.2 < l then some (i, l) else some q)
    none

/-- `socket.inet_ntop(AF_INET6, ·)`: canonical IPv6 text — lowercase hex
groups without leading zeros, leftmost-longest run of two or more zero
groups compressed to `::`.  (The platform routine's embedded-IPv4 special
forms are not modelled; no claim depends on AAAA rendering.) -/
def ipv6Text (bs : List Nat) : List Nat :=
  let gs := ipv6Groups bs
  match bestZeroRun gs with
  | none => List.intercalate [58] (gs.map natHex)
  | some (i, l) =>
      List.intercalate [58] ((gs.take i).map natHex) ++ [58, 58] ++
        List.intercalate [58] ((gs.drop (i + l)).map natHex)

/-- `bytes.find(sub)`: the lowest index at which `sub` occurs, if any.
(Python returns `-1` when absent; every call site below passes a slice of
`pkt` itself, so the occurrence always exists.) -/
def listFind (pkt sub : Packet) : Option Nat :=
  (List.range (pkt.length + 1)).find? (fun i => (pkt.drop i).take sub.length == sub)

/-- The TXT segmentation loop of `_parse_record_data`: repeat
{1-byte length, that many bytes}, stopping at a short final segment. -/
def txtSegs (l : List Nat) : List (List Nat) :=
  match l with
  | [] => []
  | lenb :: rest =>
    if lenb ≤ rest.length then asciiIgnore (rest.take lenb) :: txtSegs (rest.drop lenb)
    else []
termination_by l.length
decreasing_by simp [List.length_drop]; omega

/-- `DNSPacketParser._parse_record_data(record_type, rdata, packet)`.
The catch-all `except` turns any exception into the hex fallback, so the
only non-`ok` outcome is fuel exhaustion inside an embedded name parse. -/
def parseRecordData (rt : String) (rdata pkt : Packet) (fuel : Nat) : PRes (List Nat) :=
  if rt = "A" then
    if rdata.length = 4 then .ok (dottedQuad rdata) else .ok (hexDump rdata)
  else if rt = "AAAA" then
    if rdata.length = 16 then .ok (ipv6Text rdata) else .ok (hexDump rdata)
  else if rt = "NS" ∨ rt = "CNAME" ∨ rt = "PTR" then
    match listFind pkt rdata with
    | some i =>
      match parseDomainName pkt i fuel with
      | .ok (nm, _) => .ok nm
      | .exn _ => .ok (hexDump rdata)
      | .out => .out
    | none => .ok (hexDump rdata)
  else if rt = "MX" then
    if 3 ≤ rdata.length then
      let pri := byteAt rdata 0 * 256 + byteAt rdata 1
      match listFind pkt (rdata.drop 2) with
      | some i =>
        match parseDomainName pkt i fuel with
        | .ok (nm, _) => .ok (natDecimal pri ++ [32] ++ nm)
        | .exn _ => .ok (hexDump rdata)
        | .out => .out
      | none => .ok (natDecimal pri ++ strCodes (" <unknown>"))
    else .ok (hexDump rdata)
  else if rt = "TXT" then
    .ok ([34] ++ (txtSegs rdata).flatten ++ [34])
  else .ok (hexDump rdata)

/-! ## Questions, records, messages -/

structure Question where
  name : List Nat
  qtype : String
  qclass : Nat
  deriving DecidableEq, Repr

structure RRecord where
  name : List Nat
  rtype : String
  rclass : Nat
  ttl : Nat
  data : List Nat
  deriving DecidableEq, Repr

/-- The response dict assembled by `parse_response`, plus the three metadata
keys the resolver adds afterwards (absent while still inside the parser). -/
structure Message where
  id : Nat
  status : String
  flags : Nat
  questions : List Question
  answers : List RRecord
  authority : List RRecord
  additional : List RRecord
  queryName : Option (List Nat) := none
  queryType : Option String := none
  dnsServer : Option String := none
  deriving DecidableEq, Repr

/-- `DNSPacketParser._parse_question`. -/
def parseQuestion (pkt : Packet) (off fuel : Nat) : PRes (Question × Nat) :=
  match parseDomainName pkt off fuel with
  | .exn e => .exn e
  | .out => .out
  | .ok (nm, o1) =>
    if o1 + 4 ≤ pkt.length then
      .ok ({ name := nm
             qtype := recordTypeName (byteAt pkt o1 * 256 + byteAt pkt (o1 + 1))
             qclass := byteAt pkt (o1 + 2) * 256 + byteAt pkt (o1 + 3) }, o1 + 4)
    else .exn .structError

/-- `DNSPacketParser._parse_resource_record`. -/
def parseRecord (pkt : Packet) (off fuel : Nat) : PRes (RRecord × Nat) :=
  match parseDomainName pkt off fuel with
  | .exn e => .exn e
  | .out => .out
  | .ok (nm, o1) =>
    if o1 + 10 ≤ pkt.length then
      let rdlength := byteAt pkt (o1 + 8) * 256 + byteAt pkt (o1 + 9)
      let rtName := recordTypeName (byteAt pkt o1 * 256 + byteAt pkt (o1 + 1))
      match parseRecordData rtName ((pkt.drop (o1 + 10)).take rdlength) pkt fuel with
      | .ok pd =>
        .ok ({ name := nm
               rtype := rtName
               rclass := byteAt pkt (o1 + 2) * 256 + byteAt pkt (o1 + 3)
               ttl := get32at pkt (o1 + 4)
               data := pd }, o1 + 10 + rdlength)
      | .exn e => .exn e
      | .out => .out
    else .exn .structError

/-- Outcome of one section loop of `parse_response`. -/
inductive SecOutcome where
  | done
  | failed
  | out
  deriving DecidableEq, Repr

/-- The question loop: returns the successfully appended prefix, the final
offset, and how the loop ended. -/
def parseQLoop (pkt : Packet) (fuel : Nat) : Nat → Nat → List Question × Nat × SecOutcome
  | 0, off => ([], off, .done)
  | n + 1, off =>
    match parseQuestion pkt off fuel with
    | .ok (q, off') =>
      let r := parseQLoop pkt fuel n off'
      (q :: r.1, r.2.1, r.2.2)
    | .exn _ => ([], off, .failed)
    | .out => ([], off, .out)

/-- A record-section loop (answer / authority / additional). -/
def parseRLoop (pkt : Packet) (fuel : Nat) : Nat → Nat → List RRecord × Nat × SecOutcome
  | 0, off => ([], off, .done)
  | n + 1, off =>
    match parseRecord pkt off fuel with
    | .ok (r, off') =>
      let rest := parseRLoop pkt fuel n off'
      (r :: rest.1, rest.2.1, rest.2.2)
    | .exn _ => ([], off, .failed)
    | .out => ([], off, .out)

/-- `DNSPacketParser.parse_response(packet, expected_id)`.  The `try` block
around the four section loops turns any section exception into returning the
response assembled so far. -/
def parseResponse (pkt : Packet) (expectedId : Option Nat) (fuel : Nat) : PRes Message :=
  if pkt.length < 12 then .exn .tooShort
  else
    let hdr := parseHeader pkt
    if expectedId.getD hdr.id ≠ hdr.id then .exn .idMismatch
    else
      let base : Message :=
        { id := hdr.id, status := statusOf (hrcode hdr.flags), flags := hdr.flags
          questions := [], answers := [], authority := [], additional := [] }
      let q := parseQLoop pkt fuel hdr.qdcount 12
      match q.2.2 with
      | .out => .out
      | .failed => .ok { base with questions := q.1 }
      | .done =>
        let an := parseRLoop pkt fuel hdr.ancount q.2.1
        match an.2.2 with
        | .out => .out
        | .failed => .ok { base with questions := q.1, answers := an.1 }
        | .done =>
          let ns := parseRLoop pkt fuel hdr.nscount an.2.1
          match ns.2.2 with
          | .out => .out
          | .failed =>
            .ok { base with questions := q.1, answers := an.1, authority := ns.1 }
          | .done =>
            let ar := parseRLoop pkt fuel hdr.arcount ns.2.1
            match ar.2.2 with
            | .out => .out
            | _ =>
              .ok { base with questions := q.1, answers := an.1, authority := ns.1
                              additional := ar.1 }

/-! ## `DNSPacketBuilder` -/

/-- The `ValueError`s of `build_query` plus the `UnicodeEncodeError` that
`label.encode('ascii')` raises on a non-ASCII label. -/
inductive BuildErr where
  | unsupportedType
  | invalidDomainName
  | labelTooLong
  | asciiError
  deriving DecidableEq, Repr

/-- `RECORD_TYPES` (builder direction). -/
def recordTypeCode (rt : String) : Option Nat :=
  if rt = "A" then some 1
  else if rt = "NS" then some 2
  else if rt = "CNAME" then some 5
  else if rt = "PTR" then some 12
  else if rt = "MX" then some 15
  else if rt = "TXT" then some 16
  else if rt = "AAAA" then some 28
  else none

/-- `struct.pack('!H', n)` (all call sites pass values below `2^16`). -/
def bytes16 (n : Nat) : List Nat := [n / 256 % 256, n % 256]

/-- The label loop of `_encode_domain_name`: empty labels are skipped, a
label longer than 63 bytes raises, each kept label is emitted as a length
byte followed by its bytes. -/
def encodeLabels : List (List Nat) → Except BuildErr (List Nat)
  | [] => .ok []
  | l :: ls =>
    if l.isEmpty then encodeLabels ls
    else if 63 < l.length then .error .labelTooLong
    else if l.any (fun b => 128 ≤ b) then .error .asciiError
    else
      match encodeLabels ls with
      | .ok rest => .ok (l.length :: (l ++ rest))
      | .error e => .error e

/-- `DNSPacketBuilder._encode_domain_name(domain)`.  Note the length guard
is on the dotted input string itself, not on its encoded form. -/
def encodeDomainName (domain : List Nat) : Except BuildErr (List Nat) :=
  if domain.isEmpty ∨ 253 < domain.length then .error .invalidDomainName
  else
    match encodeLabels (domain.splitOn 46) with
    | .ok enc => .ok (enc ++ [0])
    | .error e => .error e

/-- `DNSPacketBuilder._build_header(transaction_id)`. -/
def buildHeader (tid : Nat) : List Nat :=
  bytes16 (tid &&& 0xFFFF) ++ bytes16 0x0100 ++ bytes16 1 ++ bytes16 0 ++ bytes16 0 ++ bytes16 0

/-- `DNSPacketBuilder.build_query(domain, record_type, transaction_id)`. -/
def buildQuery (domain : List Nat) (rt : String) (tid : Nat) : Except BuildErr (List Nat) :=
  match recordTypeCode rt with
  | none => .error .unsupportedType
  | some c =>
    match encodeDomainName domain with
    | .error e => .error e
    | .ok qname => .ok (buildHeader tid ++ qname ++ bytes16 c ++ bytes16 1)

/-! ## `CacheManager`

The entry dict is an insertion-ordered association list (Python dict
semantics: assignment to an existing key keeps its position, a new key is
appended).  `time.time()` is the explicit `now` argument. -/

structure CEntry where
  data : Message
  expires : Int
  created : Int
  deriving DecidableEq, Repr

structure Cache where
  maxSize : Nat
  entries : List (String × CEntry)
  hits : Nat
  misses : Nat
  evictions : Nat
  cleanups : Nat
  deriving DecidableEq, Repr

/-- `CacheManager(max_size)` immediately after `__init__`. -/
def cacheInit (maxSize : Nat) : Cache :=
  { maxSize := maxSize, entries := [], hits := 0, misses := 0, evictions := 0, cleanups := 0 }

/-- `del d[k]`. -/
def delKey (es : List (String × CEntry)) (k : String) : List (String × CEntry) :=
  es.eraseP (fun p => p.1 == k)

/-- `d[k] = v`: replacement in place for an existing key, append for a new one. -/
def setKey (es : List (String × CEntry)) (k : String) (v : CEntry) :
    List (String × CEntry) :=
  if (es.lookup k).isSome then es.map (fun p => if p.1 == k then (k, v) else p)
  else es ++ [(k, v)]

/-- `CacheManager.get(key)`.  (`entry['data'].copy()` is value-equal to the
entry's data; the sharing it introduces is analysed in the heap model below.) -/
def cacheGet (c : Cache) (k : String) (now : Int) : Option Message × Cache :=
  match c.entries.lookup k with
  | none => (none, { c with misses := c.misses + 1 })
  | some e =>
    if e.expires ≤ now then
      (none, { c with entries := delKey c.entries k, misses := c.misses + 1 })
    else (some e.data, { c with hits := c.hits + 1 })

/-- `min(self._cache.keys(), key=lambda k: self._cache[k]['created'])`:
the first entry in iteration order attaining the minimal `created`. -/
def minByCreated (es : List (String × CEntry)) : Option (String × CEntry) :=
  es.foldl
    (fun best p =>
      match best with
      | none => some p
      | some q => if p.2.created < q.2.created then some p else some q)
    none

/-- `CacheManager._evict_oldest()`. -/
def evictOldest (c : Cache) : Cache :=
  match minByCreated c.entries with
  | none => c
  | some m => { c with entries := delKey c.entries m.1, evictions := c.evictions + 1 }

/-- `CacheManager.set(key, data, ttl)`. -/
def cacheSet (c : Cache) (k : String) (d : Message) (ttl : Int) (now : Int) : Cache :=
  if ttl ≤ 0 then c
  else
    let c1 :=
      if c.maxSize ≤ c.entries.length ∧ (c.entries.lookup k).isNone then evictOldest c else c
    { c1 with entries := setKey c1.entries k ⟨d, now + ttl, now⟩ }

/-- `CacheManager.is_cached(key)`. -/
def cacheIsCached (c : Cache) (k : String) (now : Int) : Bool × Cache :=
  match c.entries.lookup k with
  | none => (false, c)
  | some e =>
    if e.expires ≤ now then (false, { c with entries := delKey c.entries k })
    else (true, c)

/-- `CacheManager.get_ttl(key)`. -/
def cacheGetTTL (c : Cache) (k : String) (now : Int) : Int × Cache :=
  match c.entries.lookup k with
  | none => (0, c)
  | some e =>
    if e.expires ≤ now then (0, { c with entries := delKey c.entries k })
    else (e.expires - now, c)

/-- `CacheManager.delete(key)`. -/
def cacheDelete (c : Cache) (k : String) : Bool × Cache :=
  if (c.entries.lookup k).isSome then (true, { c with entries := delKey c.entries k })
  else (false, c)

/-- `CacheManager.clear_cache()`. -/
def cacheClear (c : Cache) : Cache := { c with entries := [], hits := 0, misses := 0 }

/-- `CacheManager._cleanup_expired()`: one sweep removing every expired
entry, bumping `cleanups` once iff at least one entry was removed. -/
def cacheCleanup (c : Cache) (now : Int) : Cache :=
  let expired := c.entries.filter (fun p => decide (p.2.expires ≤ now))
  { c with
    entries := c.entries.filter (fun p => decide (now < p.2.expires))
    cleanups := if expired.isEmpty then c.cleanups else c.cleanups + 1 }

/-- `CacheManager.import_cache`: one imported file entry — key, decoded
data, and its `ttl_remaining` field. -/
structure ImportItem where
  key : String
  data : Message
  ttlRemaining : Int
  deriving DecidableEq, Repr

/-- The entry loop of `CacheManager.import_cache`: every item with positive
`ttl_remaining` is written straight into the entry dict — no `max_size`
check, no eviction. -/
def cacheImport (c : Cache) (items : List ImportItem) (now : Int) : Cache :=
  items.foldl
    (fun c it =>
      if 0 < it.ttlRemaining then
        { c with entries := setKey c.entries it.key ⟨it.data, now + it.ttlRemaining, now⟩ }
      else c)
    c

/-! ## `DNSClient` -/

/-- `DNSClient._get_minimum_ttl(response)`: `min` of the `ttl` fields over
the answer, authority and additional sections, `300` if there are none. -/
def minimumTTL (resp : Message) : Nat :=
  match (resp.answers ++ resp.authority ++ resp.additional).map (fun r => r.ttl) with
  | [] => 300
  | t :: ts => ts.foldl Nat.min t

/-- ASCII string of a list of character codes. -/
def strOfCodes (l : List Nat) : String := String.mk (l.map Char.ofNat)

/-- `f"{domain}:{record_type}:{dns_server}"`. -/
def cacheKey (domain : List Nat) (rt server : String) : String :=
  strOfCodes domain ++ ":" ++ rt ++ ":" ++ server

/-- The three metadata assignments `query` performs on the parsed response
(`query_name`, `query_type`, `dns_server`). -/
def tagMsg (m0 : Message) (domain : List Nat) (rt server : String) : Message :=
  { m0 with queryName := some domain, queryType := some rt, dnsServer := some server }

/-- The failure modes of `DNSClient.query`. -/
inductive QErr where
  | buildFailed (e : BuildErr)
  | transportFailed
  | parseFailed (e : PErr)
  deriving DecidableEq, Repr

/-- Result of `DNSClient.query`: the response and the cache state afterwards,
an exception with the cache state afterwards, or non-termination. -/
inductive QRes where
  | ok (m : Message) (c : Option Cache)
  | err (e : QErr) (c : Option Cache)
  | out
  deriving DecidableEq, Repr

/-- The network half of `DNSClient.query` (after a cache miss): build,
transmit (`transport` is the reply datagram, `none` a transport failure),
decode against the sent transaction id, attach metadata, cache on NOERROR. -/
def clientQueryNet (cm1 : Option Cache) (key : String) (domain : List Nat)
    (rt server : String) (tid : Nat) (transport : Option Packet) (now : Int)
    (fuel : Nat) : QRes :=
  match buildQuery domain rt tid with
  | .error e => .err (.buildFailed e) cm1
  | .ok _ =>
    match transport with
    | none => .err .transportFailed cm1
    | some rp =>
      match parseResponse rp (some tid) fuel with
      | .exn e => .err (.parseFailed e) cm1
      | .out => .out
      | .ok m0 =>
        let m := tagMsg m0 domain rt server
        match cm1 with
        | some c =>
          if m.status = "NOERROR" then
            if 0 < minimumTTL m then
              .ok m (some (cacheSet c key m (minimumTTL m : Int) now))
            else .ok m (some c)
          else .ok m (some c)
        | none => .ok m none

/-- `DNSClient.query(domain, record_type, dns_server, ...)` with the random
transaction id, the transport exchange and the clock as explicit inputs. -/
def clientQuery (cm : Option Cache) (domain : List Nat) (rt server : String)
    (tid : Nat) (transport : Option Packet) (now : Int) (fuel : Nat) : QRes :=
  let key := cacheKey domain rt server
  match cm with
  | some c =>
    let g := cacheGet c key now
    match g.1 with
    | some resp => .ok resp (some g.2)
    | none => clientQueryNet (some g.2) key domain rt server tid transport now fuel
  | none => clientQueryNet none key domain rt server tid transport now fuel

/-! ## Cache operation sequences -/

/-- One foreground or background cache operation (the operations named by
the bounded-size claim, `import_cache` aside). -/
inductive COp where
  | cget (k : String) (now : Int)
  | cset (k : String) (d : Message) (ttl : Int) (now : Int)
  | cisCached (k : String) (now : Int)
  | cgetTTL (k : String) (now : Int)
  | cdelete (k : String)
  | cclear
  | ccleanup (now : Int)

/-- The state transition of one cache operation. -/
def applyOp (c : Cache) : COp → Cache
  | .cget k now => (cacheGet c k now).2
  | .cset k d ttl now => cacheSet c k d ttl now
  | .cisCached k now => (cacheIsCached c k now).2
  | .cgetTTL k now => (cacheGetTTL c k now).2
  | .cdelete k => (cacheDelete c k).2
  | .cclear => cacheClear c
  | .ccleanup now => cacheCleanup c now

/-- A minimal NOERROR message, used as cache payload in concrete runs. -/
def msg0 : Message :=
  { id := 0, status := "NOERROR", flags := 0x8180
    questions := [], answers := [], authority := [], additional := [] }

/-- A NOERROR response to a query for `a` (id 1): one question and one
A answer (name compressed to offset 12, TTL 60, rdata `8.8.8.8`). -/
def ansPacket : Packet :=
  [0, 1, 0x81, 0x80, 0, 1, 0, 1, 0, 0, 0, 0,
   1, 97, 0, 0, 1, 0, 1,
   0xC0, 12, 0, 1, 0, 1, 0, 0, 0, 60, 0, 4, 8, 8, 8, 8]

/-- A cache of capacity 2, filled with two entries: `a` created at time 10
and `b` created at time 5 (the oldest). -/
def cache2full : Cache :=
  { maxSize := 2
    entries := [("a", ⟨msg0, 100, 10⟩), ("b", ⟨msg0, 100, 5⟩)]
    hits := 0, misses := 0, evictions := 0, cleanups := 0 }

/-! ## A heap model of Python objects, for the copy-semantics of `get`

`CacheManager.get` returns `entry['data'].copy()` — `dict.copy()`, a
shallow copy.  To reason about sharing we embed the relevant objects in an
explicit heap: a dict or list lives at an address, and values are
primitives or references. -/

inductive PyVal where
  | vstr (s : String)
  | vint (n : Int)
  | vref (a : Nat)
  deriving DecidableEq, Repr

inductive PyObj where
  | pdict (fields : List (String × PyVal))
  | plist (elems : List PyVal)
  deriving DecidableEq, Repr

abbrev Heap := List (Nat × PyObj)

def heapGet (h : Heap) (a : Nat) : Option PyObj := h.lookup a

def heapSet (h : Heap) (a : Nat) (o : PyObj) : Heap :=
  if (h.lookup a).isSome then h.map (fun p => if p.1 == a then (a, o) else p)
  else h ++ [(a, o)]

def freshAddr (h : Heap) : Nat := (h.map Prod.fst).foldl max 0 + 1

/-- `d.copy()` on the dict at `a`: a fresh dict object with the *same*
field values (references included) — a shallow copy. -/
def dictCopy (h : Heap) (a : Nat) : Heap × Nat :=
  match heapGet h a with
  | some (.pdict fs) => (h ++ [(freshAddr h, .pdict fs)], freshAddr h)
  | _ => (h, a)

def dictField (h : Heap) (a : Nat) (f : String) : Option PyVal :=
  match heapGet h a with
  | some (.pdict fs) => fs.lookup f
  | _ => none

/-- `lst.append(v)` on the list object at `a` — mutation in place. -/
def listAppendAt (h : Heap) (a : Nat) (v : PyVal) : Heap :=
  match heapGet h a with
  | some (.plist es) => heapSet h a (.plist (es ++ [v]))
  | _ => h

structure HEntry where
  dataAddr : Nat
  expires : Int
  created : Int
  deriving DecidableEq, Repr

structure HCache where
  entries : List (String × HEntry)
  hits : Nat
  misses : Nat
  deriving DecidableEq, Repr

/-- `CacheManager.get(key)` at the heap level: the same control flow as
`cacheGet`, with `entry['data'].copy()` made explicit as `dictCopy`.
Returns the new heap, the new cache state, and the returned reference. -/
def hGet (h : Heap) (c : HCache) (k : String) (now : Int) : Heap × HCache × Option Nat :=
  match c.entries.lookup k with
  | none => (h, { c with misses := c.misses + 1 }, none)
  | some e =>
    if e.expires ≤ now then
      (h, { c with entries := c.entries.eraseP (fun p => p.1 == k)
                   misses := c.misses + 1 }, none)
    else
      let hc := dictCopy h e.dataAddr
      (hc.1, { c with hits := c.hits + 1 }, some hc.2)

/-- A heap holding one cached response dict at address 1 whose `answers`
field references the (empty) list object at address 2. -/
def heap0 : Heap :=
  [(1, .pdict [("status", .vstr "NOERROR"), ("answers", .vref 2)]), (2, .plist [])]

/-- A heap-level cache with the single key `k` bound to the dict at
address 1, expiring at time 100. -/
def hcache0 : HCache := { entries := [("k", ⟨1, 100, 0⟩)], hits := 0, misses := 0 }

/-! ## Helper views used by the theorems -/

/-- Forget the resumption offset of a name-parse outcome, keeping only the
label list (used to state that labels do not depend on the jump state). -/
def resLabels : PRes (List (List Nat) × Nat) → PRes (List (List Nat))
  | .ok (ls, _) => .ok ls
  | .exn e => .exn e
  | .out => .out

/-- The 14-bit target of the compression pointer at `off`. -/
def ptrTarget (pkt : Packet) (off : Nat) : Nat :=
  (byteAt pkt off * 256 + byteAt pkt (off + 1)) &&& 0x3FFF

/-- The raw encoding of a label sequence: each label as a length byte
followed by its bytes (the value `_encode_domain_name` accumulates before
appending the terminator). -/
def encRaw (ls : List (List Nat)) : List Nat := (ls.map (fun l => l.length :: l)).flatten

/-! ## Concrete example inputs used by the theorems -/

/-- A packet holding the name `a` at offset 12 (`\x01 a \x00`) and, at
offset 15, a name consisting purely of a compression pointer to offset 12. -/
def pointerPacket : Packet := [0, 0, 0, 0, 0, 0, 0, 0, 0, 0, 0, 0, 1, 97, 0, 0xC0, 12]

/-- A 14-byte response: a header announcing one question, followed at
offset 12 by the compression pointer `0xC0 0x0C` — a pointer whose 14-bit
target is offset 12, i.e. a pointer chain that references itself. -/
def loopPacket : Packet := [0, 0, 0, 0, 0, 1, 0, 0, 0, 0, 0, 0, 0xC0, 0x0C]

/-- A 12-byte response whose flags field `0x8006` carries rcode 6,
a code outside the `RESPONSE_CODES` table. -/
def rcode6Packet : Packet := [0, 1, 0x80, 0x06, 0, 0, 0, 0, 0, 0, 0, 0]

/-- A 12-byte response whose flags field is `0x8183` (qr=1, rd=1, ra=1,
rcode=3). -/
def nxdomainPacket : Packet := [0x12, 0x34, 0x81, 0x83, 0, 0, 0, 0, 0, 0, 0, 0]

/-- A response announcing one question and one answer whose answer section
is truncated: the question `a` (type A, class IN) parses, then the answer's
fixed fields run past the end of the packet. -/
def truncPacket : Packet :=
  [0, 1, 0x81, 0x80, 0, 1, 0, 1, 0, 0, 0, 0, 1, 97, 0, 0, 1, 0, 1, 0xC0, 12, 0, 1]

/-- 127 single-character labels `a.a.…​.a`: the dotted string is 253 bytes,
but its encoding before the terminator is 2·127 = 254 bytes. -/
def dom253 : List Nat := List.intercalate [46] (List.replicate 127 [97])

/-- A single 300-byte label. -/
def dom300 : List Nat := List.replicate 300 97

/-- Length of the encoded domain before the terminating zero byte (0 when
the label loop fails). -/
def encBeforeTerm (domain : List Nat) : Nat :=
  match encodeLabels (domain.splitOn 46) with
  | .ok enc => enc.length
  | .error _ => 0

/-- Whether a build result is a success. -/
def isOkB : Except BuildErr (List Nat) → Bool
  | .ok _ => true
  | .error _ => false

/-! # Theorems -/

/-! ### C1 — the decompression loop has no bound -/

/-- Once the self-referencing pointer of `loopPacket` has been followed, the
loop re-reads offset 12 forever: every fuel bound is exhausted. -/
theorem parseNameAux_loopPacket :
    ∀ fuel, parseNameAux loopPacket fuel 12 (some 14) [] = .out := by
  intro fuel
  induction fuel with
  | zero => rfl
  | succ n ih => exact ih

/-- From the initial state the first iteration jumps to offset 12 again. -/
theorem parseNameAux_loopPacket_start :
    ∀ fuel, parseNameAux loopPacket fuel 12 none [] = .out := by
  intro fuel
  cases fuel with
  | zero => rfl
  | succ n => exact parseNameAux_loopPacket n

/-- C1: the claim says decoding bounds the number of compression-pointer
hops and fails with `CompressionLoopDetected` on a cycle.  The code has no
such bound: on `loopPacket`, whose name field is a pointer referencing
itself, `_parse_domain_name` — and hence `parse_response` — runs forever:
for every fuel bound the embedded loop exhausts it without returning and
without raising.  (`code_bug`: the spec mandates the bound; §9 of the spec
itself records that the original decompression logic lacks one.) -/
theorem c1_compression_cycle_diverges :
    ∀ fuel, parseDomainName loopPacket 12 fuel = .out ∧
      parseResponse loopPacket none fuel = .out := by
  intro fuel
  have hname : parseDomainName loopPacket 12 fuel = .out := by
    unfold parseDomainName
    rw [parseNameAux_loopPacket_start fuel]
  have hq : parseQuestion loopPacket 12 fuel = .out := by
    unfold parseQuestion
    rw [hname]
  have hql : parseQLoop loopPacket fuel 1 12 = ([], 12, .out) := by
    unfold parseQLoop
    rw [hq]
  refine ⟨hname, ?_⟩
  unfold parseResponse
  rw [if_neg (by decide)]
  simp only [Option.getD_none, ne_eq, not_true_eq_false, if_false,
    show (parseHeader loopPacket).qdcount = 1 from rfl, hql]

/-! ### C10 — the rcode → status mapping -/

/-- C10: the closed mapping 0→NOERROR, 1→FORMERR, 2→SERVFAIL, 3→NXDOMAIN,
4→NOTIMP, 5→REFUSED holds, and flags `0x8183` give qr=1, rcode=3 and
status NXDOMAIN; but for a code outside the table the fallback f-string
`f'UNKNOWN({rcode}'` is missing its closing parenthesis, so rcode 6
yields the status string `UNKNOWN(6`, not `UNKNOWN(6)` as the claim
states (`code_bug`: an evident slip in the source). -/
theorem c10_status_mapping :
    statusOf 0 = "NOERROR" ∧ statusOf 1 = "FORMERR" ∧ statusOf 2 = "SERVFAIL" ∧
    statusOf 3 = "NXDOMAIN" ∧ statusOf 4 = "NOTIMP" ∧ statusOf 5 = "REFUSED" ∧
    hqr 0x8183 = 1 ∧ hrcode 0x8183 = 3 ∧
    parseResponse nxdomainPacket none 1 =
      .ok { id := 0x1234, status := "NXDOMAIN", flags := 0x8183
            questions := [], answers := [], authority := [], additional := [] } ∧
    parseResponse rcode6Packet none 1 =
      .ok { id := 1, status := "UNKNOWN(6", flags := 0x8006
            questions := [], answers := [], authority := [], additional := [] } ∧
    statusOf 6 ≠ "UNKNOWN(6)" := by
  refine ⟨rfl, rfl, rfl, rfl, rfl, rfl, rfl, rfl, rfl, rfl, ?_⟩
  decide

/-! ### C9 — the first pointer fixes the resumption offset -/

/-- Once a pointer has been followed (`jumped = some r`), whatever labels
and further pointers are read, a successful parse returns offset `r`. -/
theorem parseNameAux_offset_of_jumped (pkt : Packet) :
    ∀ fuel off r acc ls fo,
      parseNameAux pkt fuel off (some r) acc = .ok (ls, fo) → fo = r := by
  intro fuel
  induction fuel with
  | zero => intro off r acc ls fo h; simp [parseNameAux] at h
  | succ n ih =>
    intro off r acc ls fo h
    simp only [parseNameAux] at h
    split at h
    · simp only [PRes.ok.injEq, Prod.mk.injEq, Option.getD_some] at h
      exact h.2.symm
    · split at h
      · split at h
        · simp at h
        · exact ih _ _ _ _ _ (by simpa using h)
      · split at h
        · simp only [PRes.ok.injEq, Prod.mk.injEq, Option.getD_some] at h
          exact h.2.symm
        · split at h
          · simp only [PRes.ok.injEq, Prod.mk.injEq, Option.getD_some] at h
            exact h.2.symm
          · exact ih _ _ _ _ _ h

/-- The decoded labels do not depend on the jump state: only the returned
offset does. -/
theorem parseNameAux_labels_indep (pkt : Packet) :
    ∀ fuel off j j' acc,
      resLabels (parseNameAux pkt fuel off j acc) =
        resLabels (parseNameAux pkt fuel off j' acc) := by
  intro fuel
  induction fuel with
  | zero => intro off j j' acc; rfl
  | succ n ih =>
    intro off j j' acc
    simp only [parseNameAux]
    split
    · rfl
    · split
      · split
        · rfl
        · exact ih _ _ _ _
      · split
        · rfl
        · split
          · rfl
          · exact ih _ _ _ _

/-- C9: (a) whenever the name decode has followed at least one pointer —
the code sets the resumption offset to (first pointer position + 2) and
thereafter `jumped = some r` — a successful decode returns exactly that
offset, regardless of how many further pointers are followed; and
(b) a name consisting purely of a pointer decodes to the same string as
the name at the pointer's target, the caller resuming at `off + 2`. -/
theorem c9_pointer_resumption :
    (∀ (pkt : Packet) fuel off r acc ls fo,
        parseNameAux pkt fuel off (some r) acc = .ok (ls, fo) → fo = r) ∧
    (∀ (pkt : Packet) fuel off nm fo,
        off + 2 ≤ pkt.length →
        byteAt pkt off &&& 0xC0 = 0xC0 →
        parseDomainName pkt (ptrTarget pkt off) fuel = .ok (nm, fo) →
        parseDomainName pkt off (fuel + 1) = .ok (nm, off + 2)) := by
  constructor
  · exact parseNameAux_offset_of_jumped
  · intro pkt fuel off nm fo h2 hptr hparse
    have hlt : off < pkt.length := by omega
    unfold parseDomainName at hparse
    cases haux : parseNameAux pkt fuel (ptrTarget pkt off) none [] with
    | ok p =>
      rw [haux] at hparse
      obtain ⟨ls, fo0⟩ := p
      simp only [PRes.ok.injEq, Prod.mk.injEq] at hparse
      have hstep : parseNameAux pkt (fuel + 1) off none [] =
          parseNameAux pkt fuel (ptrTarget pkt off) (some (off + 2)) [] := by
        simp only [parseNameAux, if_neg (not_le.mpr hlt), if_pos hptr]
        have hg : get16 pkt off = some (byteAt pkt off * 256 + byteAt pkt (off + 1)) := by
          unfold get16
          rw [if_pos h2]
        rw [hg]
        rfl
      have hlab : resLabels (parseNameAux pkt fuel (ptrTarget pkt off) (some (off + 2)) []) =
          resLabels (parseNameAux pkt fuel (ptrTarget pkt off) none []) :=
        parseNameAux_labels_indep pkt fuel _ _ _ _
      rw [haux] at hlab
      cases hj : parseNameAux pkt fuel (ptrTarget pkt off) (some (off + 2)) [] with
      | ok q =>
        obtain ⟨ls', fo'⟩ := q
        rw [hj] at hlab
        simp only [resLabels, PRes.ok.injEq] at hlab
        have hfo : fo' = off + 2 := parseNameAux_offset_of_jumped pkt fuel _ _ _ _ _ hj
        unfold parseDomainName
        rw [hstep, hj, hlab, hfo]
        show PRes.ok (joinName ls, off + 2) = PRes.ok (nm, off + 2)
        rw [hparse.1]
      | exn e => rw [hj] at hlab; simp [resLabels] at hlab
      | out => rw [hj] at hlab; simp [resLabels] at hlab
    | exn e => rw [haux] at hparse; simp at hparse
    | out => rw [haux] at hparse; simp at hparse

/-- Witness for C9 at a concrete packet: the pure-pointer name at offset 15
of `pointerPacket` decodes to `a`, the same string as the name at its
target offset 12, and the caller resumes at 15 + 2 = 17. -/
theorem c9_pointer_resumption_witness :
    parseDomainName pointerPacket 15 3 = .ok ([97], 15 + 2) :=
  c9_pointer_resumption.2 pointerPacket 2 15 [97] 15 (by decide) (by decide) (by decide)

/-! ### C4 — encode/decode round trip -/

/-- On labels that are non-empty, at most 63 bytes and ASCII, the builder's
label loop succeeds and produces exactly the length-prefixed encoding. -/
theorem encodeLabels_eq (ls : List (List Nat))
    (h : ∀ l ∈ ls, l ≠ [] ∧ l.length ≤ 63 ∧ ∀ b ∈ l, b < 128) :
    encodeLabels ls = .ok (encRaw ls) := by
  induction ls with
  | nil => rfl
  | cons l rest ih =>
    obtain ⟨hne, hlen, hascii⟩ := h l (by simp)
    have hrest : ∀ x ∈ rest, x ≠ [] ∧ x.length ≤ 63 ∧ ∀ b ∈ x, b < 128 :=
      fun x hx => h x (by simp [hx])
    simp only [encodeLabels]
    rw [if_neg (by simpa using hne), if_neg (by omega),
      if_neg (by
        simp only [List.any_eq_true, decide_eq_true_eq, not_exists]
        push_neg
        intro b hb
        have := hascii b hb
        omega),
      ih hrest]
    simp [encRaw]

/-- Parsing a well-formed wire encoding of labels placed after an arbitrary
prefix and before a terminator and arbitrary suffix recovers the labels and
stops one byte past the terminator, for any sufficient fuel. -/
theorem parseNameAux_encRaw (ls : List (List Nat)) :
    ∀ fuel (pre suf : List Nat) acc,
      (∀ l ∈ ls, l ≠ [] ∧ l.length ≤ 63 ∧ ∀ b ∈ l, b < 128) →
      ls.length + 1 ≤ fuel →
      parseNameAux (pre ++ (encRaw ls ++ ([0] ++ suf))) fuel pre.length none acc =
        .ok (acc.reverse ++ ls, pre.length + (encRaw ls).length + 1) := by
  induction ls with
  | nil =>
    intro fuel pre suf acc _ hf
    cases fuel with
    | zero => omega
    | succ n =>
      simp only [encRaw, List.map_nil, List.flatten_nil, List.nil_append]
      simp only [parseNameAux]
      rw [if_neg (by simp)]
      rw [show byteAt (pre ++ ([0] ++ suf)) pre.length = 0 by
        unfold byteAt
        rw [List.getD_append_right pre ([0] ++ suf) 0 pre.length (le_refl _)]
        simp]
      rw [if_neg (by decide), if_pos rfl]
      simp
  | cons l rest ih =>
    intro fuel pre suf acc h hf
    cases fuel with
    | zero => simp at hf
    | succ n =>
      obtain ⟨hne, hlen, hascii⟩ := h l (by simp)
      have hrest : ∀ x ∈ rest, x ≠ [] ∧ x.length ≤ 63 ∧ ∀ b ∈ x, b < 128 :=
        fun x hx => h x (by simp [hx])
      have hshape : pre ++ (encRaw (l :: rest) ++ ([0] ++ suf)) =
          pre ++ l.length :: (l ++ (encRaw rest ++ ([0] ++ suf))) := by
        simp [encRaw]
      rw [hshape]
      have hlen1 : (pre ++ l.length :: (l ++ (encRaw rest ++ ([0] ++ suf)))).length =
          pre.length + 1 + l.length + (encRaw rest).length + 1 + suf.length := by
        simp
        omega
      simp only [parseNameAux]
      rw [if_neg (by rw [hlen1]; omega)]
      rw [show byteAt (pre ++ l.length :: (l ++ (encRaw rest ++ ([0] ++ suf)))) pre.length
          = l.length by
        unfold byteAt
        rw [List.getD_append_right pre _ 0 pre.length (le_refl _)]
        simp]
      rw [if_neg (by
        intro hc
        have h1 : l.length &&& 0xC0 ≤ l.length := Nat.and_le_left
        rw [hc] at h1
        omega)]
      rw [if_neg (by simpa using hne)]
      rw [if_neg (by rw [hlen1]; omega)]
      rw [show ((pre ++ l.length :: (l ++ (encRaw rest ++ ([0] ++ suf)))).drop
            (pre.length + 1)).take l.length = l by
        rw [show pre ++ l.length :: (l ++ (encRaw rest ++ ([0] ++ suf))) =
            (pre ++ [l.length]) ++ (l ++ (encRaw rest ++ ([0] ++ suf))) by simp]
        rw [show pre.length + 1 = (pre ++ [l.length]).length by simp]
        rw [List.drop_left]
        exact List.take_left l _]
      rw [show asciiIgnore l = l from
        List.filter_eq_self.mpr (by intro b hb; simpa using hascii b hb)]
      have hre : pre ++ l.length :: (l ++ (encRaw rest ++ ([0] ++ suf))) =
          (pre ++ l.length :: l) ++ (encRaw rest ++ ([0] ++ suf)) := by simp
      have hoff : pre.length + 1 + l.length = (pre ++ l.length :: l).length := by
        simp
        omega
      rw [hre, hoff, ih n (pre ++ l.length :: l) suf (l :: acc) hrest (by simp at hf; omega)]
      have hlenc : (encRaw (l :: rest)).length = 1 + l.length + (encRaw rest).length := by
        simp [encRaw]
        omega
      simp only [List.reverse_cons, List.append_assoc, List.singleton_append,
        List.length_append, List.length_cons, hlenc]
      have harith : pre.length + (l.length + 1) + (encRaw rest).length + 1 =
          pre.length + (1 + l.length + (encRaw rest).length) + 1 := by omega
      rw [harith]

/-- C4: for every valid domain — dot-joined non-empty ASCII labels of at
most 63 bytes each, non-empty and at most 253 bytes in total — and every
supported record type, the question name of the packet produced by
`build_query` decodes back to exactly the original domain string. -/
theorem c4_encode_decode_round_trip (domain : List Nat) (rt : String) (c tid : Nat)
    (hrt : recordTypeCode rt = some c) (hne : domain ≠ []) (hlen : domain.length ≤ 253)
    (hlab : ∀ l ∈ domain.splitOn 46, l ≠ [] ∧ l.length ≤ 63 ∧ ∀ b ∈ l, b < 128) :
    ∃ pkt off, buildQuery domain rt tid = .ok pkt ∧
      parseDomainName pkt 12 ((domain.splitOn 46).length + 1) = .ok (domain, off) := by
  have henc : encodeLabels (domain.splitOn 46) = .ok (encRaw (domain.splitOn 46)) :=
    encodeLabels_eq _ hlab
  have hdn : encodeDomainName domain = .ok (encRaw (domain.splitOn 46) ++ [0]) := by
    unfold encodeDomainName
    rw [if_neg ?side, henc]
    case side =>
      rintro (h0 | h0)
      · exact hne (List.isEmpty_iff.mp h0)
      · omega
  have hbq : buildQuery domain rt tid =
      .ok (buildHeader tid ++ (encRaw (domain.splitOn 46) ++ [0]) ++ bytes16 c ++ bytes16 1) := by
    unfold buildQuery
    rw [hrt, hdn]
  refine ⟨_, 12 + (encRaw (domain.splitOn 46)).length + 1, hbq, ?_⟩
  have hshape : buildHeader tid ++ (encRaw (domain.splitOn 46) ++ [0]) ++ bytes16 c ++ bytes16 1
      = buildHeader tid ++ (encRaw (domain.splitOn 46) ++ ([0] ++ (bytes16 c ++ bytes16 1))) := by
    simp [List.append_assoc]
  have hmain := parseNameAux_encRaw (domain.splitOn 46) ((domain.splitOn 46).length + 1)
    (buildHeader tid) (bytes16 c ++ bytes16 1) [] hlab (le_refl _)
  have hhl : (buildHeader tid).length = 12 := rfl
  rw [hhl] at hmain
  unfold parseDomainName
  rw [hshape, hmain]
  have hsne : domain.splitOn 46 ≠ [] := by
    intro h0
    have hi := List.intercalate_splitOn domain 46
    rw [h0] at hi
    simp [List.intercalate] at hi
    exact hne hi
  simp only [List.reverse_nil, List.nil_append, joinName]
  rw [if_neg (by simpa using hsne)]
  rw [show List.intercalate [46] (domain.splitOn 46) = domain from
    List.intercalate_splitOn domain 46]

/-- Witness for C4 at the domain `ab.c`, record type A, id `0x1234`. -/
theorem c4_round_trip_witness :
    ∃ pkt off, buildQuery [97, 98, 46, 99] ("A") 0x1234 = .ok pkt ∧
      parseDomainName pkt 12 (([97, 98, 46, 99].splitOn 46).length + 1) =
        .ok ([97, 98, 46, 99], off) :=
  c4_encode_decode_round_trip [97, 98, 46, 99] ("A") 1 0x1234 (by decide) (by decide)
    (by decide) (by decide)

/-! ### C5 — which inputs raise which builder error -/

/-- The label loop never raises the invalid-domain-name error: that error
comes only from the length guard on the dotted string. -/
theorem encodeLabels_ne_invalid (ls : List (List Nat)) :
    encodeLabels ls ≠ .error BuildErr.invalidDomainName := by
  induction ls with
  | nil => simp [encodeLabels]
  | cons l rest ih =>
    simp only [encodeLabels]
    split
    · exact ih
    · split
      · simp
      · split
        · simp
        · cases hr : encodeLabels rest with
          | ok r => simp
          | error e =>
            intro hcon
            injection hcon with he
            exact ih (by rw [hr, he])

/-- With ASCII labels all of length at most 63, the label loop succeeds. -/
theorem encodeLabels_ok_of_short (ls : List (List Nat))
    (hascii : ∀ l ∈ ls, ∀ b ∈ l, b < 128) (h63 : ∀ l ∈ ls, l.length ≤ 63) :
    ∃ r, encodeLabels ls = .ok r := by
  induction ls with
  | nil => exact ⟨[], rfl⟩
  | cons l rest ih =>
    have hl := hascii l (by simp)
    obtain ⟨r, hr⟩ := ih (fun x hx b hb => hascii x (by simp [hx]) b hb)
      (fun x hx => h63 x (by simp [hx]))
    simp only [encodeLabels]
    split
    · exact ⟨r, hr⟩
    · rw [if_neg (by have := h63 l (by simp); omega)]
      rw [if_neg (by
        simp only [List.any_eq_true, decide_eq_true_eq, not_exists]
        push_neg
        intro b hb
        have := hl b hb
        omega)]
      rw [hr]
      exact ⟨_, rfl⟩

/-- With ASCII labels, the presence of a label longer than 63 bytes makes
the label loop fail with the label-too-long error. -/
theorem encodeLabels_tooLong_of_long (ls : List (List Nat))
    (hascii : ∀ l ∈ ls, ∀ b ∈ l, b < 128) (hex : ∃ l ∈ ls, 63 < l.length) :
    encodeLabels ls = .error BuildErr.labelTooLong := by
  induction ls with
  | nil => obtain ⟨l, hl, _⟩ := hex; simp at hl
  | cons l rest ih =>
    have hl := hascii l (by simp)
    have ihr := fun hx => ih (fun x hx b hb => hascii x (by simp [hx]) b hb) hx
    simp only [encodeLabels]
    by_cases he : l.isEmpty = true
    · rw [if_pos he]
      refine ihr ?_
      obtain ⟨x, hx, h63⟩ := hex
      rcases List.mem_cons.mp hx with rfl | hx'
      · rw [List.isEmpty_iff.mp he] at h63
        simp at h63
      · exact ⟨x, hx', h63⟩
    · rw [if_neg he]
      by_cases hlong : 63 < l.length
      · rw [if_pos hlong]
      · rw [if_neg hlong]
        rw [if_neg (by
          simp only [List.any_eq_true, decide_eq_true_eq, not_exists]
          push_neg
          intro b hb
          have := hl b hb
          omega)]
        have hx' : ∃ x ∈ rest, 63 < x.length := by
          obtain ⟨x, hx, h63⟩ := hex
          rcases List.mem_cons.mp hx with rfl | hx'
          · omega
          · exact ⟨x, hx', h63⟩
        rw [ihr hx']

set_option maxRecDepth 20000 in
/-- Counterexample to C5 as stated.  `dom253` (127 one-byte labels) has an
encoded form of 254 > 253 bytes before the terminator, yet `build_query`
succeeds — the source guards `len(domain) > 253` on the dotted string, not
the encoded form.  And `dom300` contains a 300-byte label, yet fails with
the invalid-domain-name error rather than the label-too-long error,
because the string-length guard fires first. -/
theorem c5_counterexample :
    encBeforeTerm dom253 = 254 ∧ dom253.length = 253 ∧
    isOkB (buildQuery dom253 ("A") 1) = true ∧
    (dom300.splitOn 46).any (fun l => 64 ≤ l.length) = true ∧
    buildQuery dom300 ("A") 1 = .error BuildErr.invalidDomainName :=
  ⟨by decide, by decide, by decide, by decide, rfl⟩

/-- C5 as amended: for ASCII domains, `build_query` fails with
`InvalidDomainName` exactly when the dotted string itself is empty or
longer than 253 bytes (the encoded form is never measured); for a
non-empty dotted string of at most 253 bytes it fails with `LabelTooLong`
whenever some label exceeds 63 bytes, and succeeds whenever every label is
at most 63 bytes. -/
theorem c5_builder_error_conditions (domain : List Nat) (rt : String) (c tid : Nat)
    (hrt : recordTypeCode rt = some c)
    (hascii : ∀ l ∈ domain.splitOn 46, ∀ b ∈ l, b < 128) :
    (buildQuery domain rt tid = .error BuildErr.invalidDomainName ↔
      domain = [] ∨ 253 < domain.length) ∧
    (domain ≠ [] → domain.length ≤ 253 →
      ((∃ l ∈ domain.splitOn 46, 63 < l.length) →
        buildQuery domain rt tid = .error BuildErr.labelTooLong) ∧
      ((∀ l ∈ domain.splitOn 46, l.length ≤ 63) →
        ∃ pkt, buildQuery domain rt tid = .ok pkt)) := by
  constructor
  · constructor
    · intro hb
      by_contra hcond
      push_neg at hcond
      obtain ⟨hne, hlen⟩ := hcond
      unfold buildQuery at hb
      rw [hrt] at hb
      unfold encodeDomainName at hb
      rw [if_neg (by
        rintro (h0 | h0)
        · exact hne (List.isEmpty_iff.mp h0)
        · omega)] at hb
      cases hr : encodeLabels (domain.splitOn 46) with
      | ok r => rw [hr] at hb; simp at hb
      | error e =>
        rw [hr] at hb
        simp only [Except.error.injEq] at hb
        exact encodeLabels_ne_invalid _ (by rw [hr, hb])
    · intro hcond
      unfold buildQuery
      rw [hrt]
      unfold encodeDomainName
      rw [if_pos (by
        rcases hcond with h0 | h0
        · exact Or.inl (by simp [h0])
        · exact Or.inr h0)]
  · intro hne hlen
    constructor
    · intro hex
      unfold buildQuery
      rw [hrt]
      unfold encodeDomainName
      rw [if_neg (by
        rintro (h0 | h0)
        · exact hne (List.isEmpty_iff.mp h0)
        · omega)]
      rw [encodeLabels_tooLong_of_long _ hascii hex]
    · intro h63
      obtain ⟨r, hr⟩ := encodeLabels_ok_of_short _ hascii h63
      unfold buildQuery
      rw [hrt]
      unfold encodeDomainName
      rw [if_neg (by
        rintro (h0 | h0)
        · exact hne (List.isEmpty_iff.mp h0)
        · omega)]
      rw [hr]
      exact ⟨_, rfl⟩

/-- Witness for the amended C5: a single 64-byte label (dotted string 64
bytes, within the 253 guard) fails with `LabelTooLong`. -/
theorem c5_builder_error_conditions_witness :
    buildQuery (List.replicate 64 97) ("A") 1 = .error BuildErr.labelTooLong :=
  ((c5_builder_error_conditions (List.replicate 64 97) ("A") 1 1 (by decide)
    (by decide)).2 (by decide) (by decide)).1 ⟨List.replicate 64 97, by decide, by decide⟩

/-! ### C6 — a malformed tail degrades to a partial message -/

/-- The question loop appends at most `n` questions; it appends exactly `n`
iff it ran to completion, and strictly fewer iff it stopped early. -/
theorem parseQLoop_spec (pkt : Packet) (fuel : Nat) :
    ∀ n off,
      (parseQLoop pkt fuel n off).1.length ≤ n ∧
      ((parseQLoop pkt fuel n off).2.2 = .done → (parseQLoop pkt fuel n off).1.length = n) ∧
      ((parseQLoop pkt fuel n off).2.2 ≠ .done → (parseQLoop pkt fuel n off).1.length < n) := by
  intro n
  induction n with
  | zero => intro off; exact ⟨le_refl _, fun _ => rfl, fun h => absurd rfl h⟩
  | succ k ih =>
    intro off
    simp only [parseQLoop]
    cases hq : parseQuestion pkt off fuel with
    | ok p =>
      obtain ⟨q, off'⟩ := p
      refine ⟨?_, ?_, ?_⟩
      · simpa using (ih off').1
      · intro hd
        have := (ih off').2.1 hd
        simp [this]
      · intro hd
        have := (ih off').2.2 hd
        simp only [List.length_cons]
        omega
    | exn e =>
      refine ⟨Nat.zero_le _, ?_, ?_⟩
      · intro h
        simp at h
      · intro _
        exact Nat.succ_pos _
    | out =>
      refine ⟨Nat.zero_le _, ?_, ?_⟩
      · intro h
        simp at h
      · intro _
        exact Nat.succ_pos _

/-- Same bookkeeping for a record-section loop. -/
theorem parseRLoop_spec (pkt : Packet) (fuel : Nat) :
    ∀ n off,
      (parseRLoop pkt fuel n off).1.length ≤ n ∧
      ((parseRLoop pkt fuel n off).2.2 = .done → (parseRLoop pkt fuel n off).1.length = n) ∧
      ((parseRLoop pkt fuel n off).2.2 ≠ .done → (parseRLoop pkt fuel n off).1.length < n) := by
  intro n
  induction n with
  | zero => intro off; exact ⟨le_refl _, fun _ => rfl, fun h => absurd rfl h⟩
  | succ k ih =>
    intro off
    simp only [parseRLoop]
    cases hq : parseRecord pkt off fuel with
    | ok p =>
      obtain ⟨r, off'⟩ := p
      refine ⟨?_, ?_, ?_⟩
      · simpa using (ih off').1
      · intro hd
        have := (ih off').2.1 hd
        simp [this]
      · intro hd
        have := (ih off').2.2 hd
        simp only [List.length_cons]
        omega
    | exn e =>
      refine ⟨Nat.zero_le _, ?_, ?_⟩
      · intro h
        simp at h
      · intro _
        exact Nat.succ_pos _
    | out =>
      refine ⟨Nat.zero_le _, ?_, ?_⟩
      · intro h
        simp at h
      · intro _
        exact Nat.succ_pos _

/-- C6: for every packet of at least 12 bytes whose transaction id matches
(or is not checked), `parse_response` never raises: unless the embedded
name loop diverges, it returns a message carrying the header-derived id,
flags and status, each section holding only fully decoded items (never more
than its count), and as soon as one section stops short, no later section
is parsed at all. -/
theorem c6_partial_message (pkt : Packet) (expectedId : Option Nat) (fuel : Nat)
    (h12 : 12 ≤ pkt.length)
    (hid : expectedId = none ∨ expectedId = some (parseHeader pkt).id) :
    parseResponse pkt expectedId fuel = .out ∨
    ∃ m, parseResponse pkt expectedId fuel = .ok m ∧
      m.id = (parseHeader pkt).id ∧
      m.flags = (parseHeader pkt).flags ∧
      m.status = statusOf (hrcode (parseHeader pkt).flags) ∧
      m.questions.length ≤ (parseHeader pkt).qdcount ∧
      m.answers.length ≤ (parseHeader pkt).ancount ∧
      m.authority.length ≤ (parseHeader pkt).nscount ∧
      m.additional.length ≤ (parseHeader pkt).arcount ∧
      (m.questions.length < (parseHeader pkt).qdcount →
        m.answers = [] ∧ m.authority = [] ∧ m.additional = []) ∧
      (m.answers.length < (parseHeader pkt).ancount →
        m.authority = [] ∧ m.additional = []) ∧
      (m.authority.length < (parseHeader pkt).nscount → m.additional = []) := by
  have hgd : expectedId.getD (parseHeader pkt).id = (parseHeader pkt).id := by
    rcases hid with rfl | rfl
    · rfl
    · rfl
  simp only [parseResponse]
  rw [if_neg (by omega), if_neg (by rw [hgd]; exact fun h => h rfl)]
  rcases hq : parseQLoop pkt fuel (parseHeader pkt).qdcount 12 with ⟨qs, o1, c1⟩
  have hqs := parseQLoop_spec pkt fuel (parseHeader pkt).qdcount 12
  rw [hq] at hqs
  cases c1 with
  | out => exact .inl rfl
  | failed =>
    refine .inr ⟨_, rfl, rfl, rfl, rfl, hqs.1, Nat.zero_le _, Nat.zero_le _, Nat.zero_le _,
      fun _ => ⟨rfl, rfl, rfl⟩, fun _ => ⟨rfl, rfl⟩, fun _ => rfl⟩
  | done =>
    have hqlen : qs.length = (parseHeader pkt).qdcount := hqs.2.1 rfl
    rcases han : parseRLoop pkt fuel (parseHeader pkt).ancount o1 with ⟨ans, o2, c2⟩
    have hans := parseRLoop_spec pkt fuel (parseHeader pkt).ancount o1
    rw [han] at hans
    cases c2 with
    | out => exact .inl rfl
    | failed =>
      refine .inr ⟨_, rfl, rfl, rfl, rfl, hqs.1, hans.1, Nat.zero_le _, Nat.zero_le _,
        fun h => absurd h (by simp only [Message.questions, Message.answers, Message.authority]; omega), fun _ => ⟨rfl, rfl⟩, fun _ => rfl⟩
    | done =>
      have hanlen : ans.length = (parseHeader pkt).ancount := hans.2.1 rfl
      rcases hns : parseRLoop pkt fuel (parseHeader pkt).nscount o2 with ⟨auth, o3, c3⟩
      have hauth := parseRLoop_spec pkt fuel (parseHeader pkt).nscount o2
      rw [hns] at hauth
      cases c3 with
      | out => exact .inl rfl
      | failed =>
        refine .inr ⟨_, rfl, rfl, rfl, rfl, hqs.1, hans.1, hauth.1, Nat.zero_le _,
          fun h => absurd h (by simp only [Message.questions, Message.answers, Message.authority]; omega), fun h => absurd h (by simp only [Message.questions, Message.answers, Message.authority]; omega), fun _ => rfl⟩
      | done =>
        have hnslen : auth.length = (parseHeader pkt).nscount := hauth.2.1 rfl
        rcases har : parseRLoop pkt fuel (parseHeader pkt).arcount o3 with ⟨add, o4, c4⟩
        have hadd := parseRLoop_spec pkt fuel (parseHeader pkt).arcount o3
        rw [har] at hadd
        cases c4 with
        | out => exact .inl rfl
        | failed =>
          refine .inr ⟨_, rfl, rfl, rfl, rfl, hqs.1, hans.1, hauth.1, hadd.1,
            fun h => absurd h (by simp only [Message.questions, Message.answers, Message.authority]; omega), fun h => absurd h (by simp only [Message.questions, Message.answers, Message.authority]; omega),
            fun h => absurd h (by simp only [Message.questions, Message.answers, Message.authority]; omega)⟩
        | done =>
          refine .inr ⟨_, rfl, rfl, rfl, rfl, hqs.1, hans.1, hauth.1, hadd.1,
            fun h => absurd h (by simp only [Message.questions, Message.answers, Message.authority]; omega), fun h => absurd h (by simp only [Message.questions, Message.answers, Message.authority]; omega),
            fun h => absurd h (by simp only [Message.questions, Message.answers, Message.authority]; omega)⟩

/-- Witness for C6 at `truncPacket`: the question decodes, the announced
answer is cut short, and the parse still returns a message rather than
raising. -/
theorem c6_partial_message_witness :
    parseResponse truncPacket none 40 = .out ∨
    ∃ m, parseResponse truncPacket none 40 = .ok m ∧
      m.id = (parseHeader truncPacket).id ∧
      m.flags = (parseHeader truncPacket).flags ∧
      m.status = statusOf (hrcode (parseHeader truncPacket).flags) ∧
      m.questions.length ≤ (parseHeader truncPacket).qdcount ∧
      m.answers.length ≤ (parseHeader truncPacket).ancount ∧
      m.authority.length ≤ (parseHeader truncPacket).nscount ∧
      m.additional.length ≤ (parseHeader truncPacket).arcount ∧
      (m.questions.length < (parseHeader truncPacket).qdcount →
        m.answers = [] ∧ m.authority = [] ∧ m.additional = []) ∧
      (m.answers.length < (parseHeader truncPacket).ancount →
        m.authority = [] ∧ m.additional = []) ∧
      (m.authority.length < (parseHeader truncPacket).nscount → m.additional = []) :=
  c6_partial_message truncPacket none 40 (by decide) (.inl rfl)

/-! ### C2 — the entry count against `max_size` -/

/-- Removing a key never lengthens the map. -/
theorem delKey_length_le (es : List (String × CEntry)) (k : String) :
    (delKey es k).length ≤ es.length :=
  (List.eraseP_sublist es).length_le

/-- Writing a key grows the map by at most one entry. -/
theorem setKey_length (es : List (String × CEntry)) (k : String) (v : CEntry) :
    (setKey es k v).length = if (es.lookup k).isSome then es.length else es.length + 1 := by
  unfold setKey
  split
  · simp [*]
  · simp [*]

/-- Deleting one key cannot make another key appear. -/
theorem lookup_delKey_none (es : List (String × CEntry)) (k a : String)
    (h : es.lookup k = none) : (delKey es a).lookup k = none := by
  induction es with
  | nil => rfl
  | cons e rest ih =>
    obtain ⟨e1, e2⟩ := e
    have hlc : List.lookup k ((e1, e2) :: rest) =
        match k == e1 with
        | true => some e2
        | false => List.lookup k rest := rfl
    cases hck : (k == e1) with
    | true =>
      rw [hlc, hck] at h
      simp at h
    | false =>
      rw [hlc, hck] at h
      have hrest : rest.lookup k = none := h
      unfold delKey
      rw [List.eraseP_cons]
      cases hba : ((e1, e2).1 == a) with
      | true => simpa [hba] using hrest
      | false =>
        simp only [hba, cond_false]
        rw [show List.lookup k ((e1, e2) :: List.eraseP (fun p => p.1 == a) rest) =
            match k == e1 with
            | true => some e2
            | false => List.lookup k (List.eraseP (fun p => p.1 == a) rest) from rfl, hck]
        exact ih hrest

/-- What the eviction fold computes: the result is drawn from the scanned
entries or the accumulator, its `created` is minimal among both, and on
ties the earlier element is kept. -/
theorem minByCreated_fold_spec :
    ∀ (es : List (String × CEntry)) (acc : Option (String × CEntry)) (r : String × CEntry),
      es.foldl (fun best p =>
        match best with
        | none => some p
        | some q => if p.2.created < q.2.created then some p else some q) acc = some r →
      (r ∈ es ∨ acc = some r) ∧ (∀ p ∈ es, r.2.created ≤ p.2.created) ∧
        (∀ q, acc = some q → r.2.created ≤ q.2.created) := by
  intro es
  induction es with
  | nil =>
    intro acc r h
    simp only [List.foldl_nil] at h
    refine ⟨.inr h, by simp, fun q hq => ?_⟩
    rw [h] at hq
    injection hq with he
    rw [he]
  | cons e rest ih =>
    intro acc r h
    simp only [List.foldl_cons] at h
    cases acc with
    | none =>
      obtain ⟨hmem, hall, hacc⟩ := ih (some e) r h
      refine ⟨?_, ?_, fun q hq => nomatch hq⟩
      · rcases hmem with hm | hm
        · exact .inl (List.mem_cons_of_mem _ hm)
        · injection hm with he
          exact .inl (he ▸ List.mem_cons_self e rest)
      · intro p hp
        rcases List.mem_cons.mp hp with rfl | hp'
        · exact hacc p rfl
        · exact hall p hp'
    | some q0 =>
      dsimp only at h
      by_cases hlt : e.2.created < q0.2.created
      · rw [if_pos hlt] at h
        obtain ⟨hmem, hall, hacc⟩ := ih (some e) r h
        have hre : r.2.created ≤ e.2.created := hacc e rfl
        refine ⟨?_, ?_, fun q hq => ?_⟩
        · rcases hmem with hm | hm
          · exact .inl (List.mem_cons_of_mem _ hm)
          · injection hm with he
            exact .inl (he ▸ List.mem_cons_self e rest)
        · intro p hp
          rcases List.mem_cons.mp hp with rfl | hp'
          · exact hre
          · exact hall p hp'
        · injection hq with he
          rw [← he]
          omega
      · rw [if_neg hlt] at h
        obtain ⟨hmem, hall, hacc⟩ := ih (some q0) r h
        have hrq : r.2.created ≤ q0.2.created := hacc q0 rfl
        refine ⟨?_, ?_, fun q hq => ?_⟩
        · rcases hmem with hm | hm
          · exact .inl (List.mem_cons_of_mem _ hm)
          · exact .inr hm
        · intro p hp
          rcases List.mem_cons.mp hp with rfl | hp'
          · omega
          · exact hall p hp'
        · injection hq with he
          rw [← he]
          exact hrq

/-- The evicted entry is one of the entries and has minimal `created`. -/
theorem minByCreated_spec (es : List (String × CEntry)) (r : String × CEntry)
    (h : minByCreated es = some r) :
    r ∈ es ∧ ∀ p ∈ es, r.2.created ≤ p.2.created := by
  obtain ⟨hmem, hall, _⟩ := minByCreated_fold_spec es none r h
  rcases hmem with hm | hm
  · exact ⟨hm, hall⟩
  · exact absurd hm (by simp)

/-- A non-empty map has an oldest entry. -/
theorem minByCreated_isSome (es : List (String × CEntry)) (h : es ≠ []) :
    (minByCreated es).isSome := by
  have hsome : ∀ (l : List (String × CEntry)) (q : String × CEntry),
      (l.foldl (fun best p =>
        match best with
        | none => some p
        | some q => if p.2.created < q.2.created then some p else some q) (some q)).isSome := by
    intro l
    induction l with
    | nil => intro q; rfl
    | cons e rest ih =>
      intro q
      simp only [List.foldl_cons]
      split <;> exact ih _
  cases es with
  | nil => exact absurd rfl h
  | cons e rest => exact hsome rest e

/-- C2 preservation, one step: any one of get / set / is_cached / get_ttl /
delete / clear / cleanup keeps the entry count within a positive
`max_size` and leaves `max_size` itself unchanged. -/
theorem applyOp_preserves (c : Cache) (op : COp)
    (hmax : 1 ≤ c.maxSize) (hinv : c.entries.length ≤ c.maxSize) :
    (applyOp c op).maxSize = c.maxSize ∧ (applyOp c op).entries.length ≤ c.maxSize := by
  cases op with
  | cget k now =>
    simp only [applyOp]
    unfold cacheGet
    cases c.entries.lookup k with
    | none => exact ⟨rfl, hinv⟩
    | some e =>
      dsimp only
      split
      · exact ⟨rfl, le_trans (delKey_length_le _ _) hinv⟩
      · exact ⟨rfl, hinv⟩
  | cset k d ttl now =>
    simp only [applyOp]
    unfold cacheSet
    split
    · exact ⟨rfl, hinv⟩
    · dsimp only
      by_cases hcond : c.maxSize ≤ c.entries.length ∧ (c.entries.lookup k).isNone
      · rw [if_pos hcond]
        unfold evictOldest
        cases hmin : minByCreated c.entries with
        | none =>
          have hne : c.entries ≠ [] := by
            intro h0
            rw [h0] at hcond
            simp at hcond
            omega
          have := minByCreated_isSome c.entries hne
          rw [hmin] at this
          simp at this
        | some m =>
          dsimp only
          refine ⟨rfl, ?_⟩
          rw [setKey_length]
          have hm := (minByCreated_spec c.entries m hmin).1
          have hdel : (delKey c.entries m.1).length = c.entries.length - 1 :=
            List.length_eraseP_of_mem hm (by simp)
          have hn : c.entries.lookup k = none := Option.isNone_iff_eq_none.mp hcond.2
          have hlk : ((delKey c.entries m.1).lookup k).isSome = false := by
            rw [lookup_delKey_none c.entries k m.1 hn]
            rfl
          have hlen1 : 1 ≤ c.entries.length := by
            have := hcond.1
            omega
          rw [hlk]
          simp only [Bool.false_eq_true, if_false, hdel]
          omega
      · rw [if_neg hcond]
        constructor
        · rfl
        · rw [setKey_length]
          split
          · exact hinv
          · rename_i hnone
            rcases Decidable.not_and_iff_or_not.mp hcond with hlt | hsomek
            · omega
            · simp [Option.isNone_iff_eq_none] at hsomek
              simp [hsomek] at hnone
  | cisCached k now =>
    simp only [applyOp]
    unfold cacheIsCached
    cases c.entries.lookup k with
    | none => exact ⟨rfl, hinv⟩
    | some e =>
      dsimp only
      split
      · exact ⟨rfl, le_trans (delKey_length_le _ _) hinv⟩
      · exact ⟨rfl, hinv⟩
  | cgetTTL k now =>
    simp only [applyOp]
    unfold cacheGetTTL
    cases c.entries.lookup k with
    | none => exact ⟨rfl, hinv⟩
    | some e =>
      dsimp only
      split
      · exact ⟨rfl, le_trans (delKey_length_le _ _) hinv⟩
      · exact ⟨rfl, hinv⟩
  | cdelete k =>
    simp only [applyOp]
    unfold cacheDelete
    split
    · exact ⟨rfl, le_trans (delKey_length_le _ _) hinv⟩
    · exact ⟨rfl, hinv⟩
  | cclear =>
    exact ⟨rfl, by simp [applyOp, cacheClear]⟩
  | ccleanup now =>
    refine ⟨rfl, ?_⟩
    simp only [applyOp, cacheCleanup]
    exact le_trans (List.length_filter_le _ _) hinv

/-- Counterexample to C2 as stated: `import_cache` is among the listed
operations, but it writes entries with no `max_size` check — importing two
entries into an empty cache of `max_size` 1 leaves 2 > 1 entries. -/
theorem c2_counterexample :
    (cacheInit 1).maxSize = 1 ∧
    (cacheImport (cacheInit 1) [⟨"k1", msg0, 5⟩, ⟨"k2", msg0, 5⟩] 0).entries.length = 2 := by
  exact ⟨rfl, by decide⟩

/-- C2 as amended: starting from a cache with at most `max_size` entries
and `max_size ≥ 1`, every sequence of get / set / is_cached / get_ttl /
delete / clear / background-cleanup operations keeps the entry count at
most `max_size`; `import_cache` is the exception and is excluded (it can
exceed the bound, as the counterexample shows). -/
theorem c2_bounded_without_import (c0 : Cache) (ops : List COp)
    (hmax : 1 ≤ c0.maxSize) (hinv : c0.entries.length ≤ c0.maxSize) :
    (ops.foldl applyOp c0).entries.length ≤ c0.maxSize := by
  have key : ∀ (l : List COp) (c : Cache), 1 ≤ c.maxSize → c.entries.length ≤ c.maxSize →
      (l.foldl applyOp c).maxSize = c.maxSize ∧
        (l.foldl applyOp c).entries.length ≤ c.maxSize := by
    intro l
    induction l with
    | nil => intro c _ h2; exact ⟨rfl, h2⟩
    | cons op rest ih =>
      intro c h1 h2
      simp only [List.foldl_cons]
      obtain ⟨hms, hle⟩ := applyOp_preserves c op h1 h2
      obtain ⟨hms', hle'⟩ := ih (applyOp c op) (by omega) (by omega)
      exact ⟨by omega, by omega⟩
  exact (key ops c0 hmax hinv).2

/-- Witness for the amended C2: four operations on a capacity-1 cache,
including two inserts, never leave more than one entry. -/
theorem c2_bounded_without_import_witness :
    (([COp.cset ("a") msg0 5 0, COp.cset ("b") msg0 5 1, COp.cget ("a") 2,
       COp.ccleanup 10].foldl applyOp (cacheInit 1)).entries.length ≤ 1) :=
  c2_bounded_without_import (cacheInit 1)
    [COp.cset ("a") msg0 5 0, COp.cset ("b") msg0 5 1, COp.cget ("a") 2, COp.ccleanup 10]
    (by decide) (by decide)

/-! ### C8 — eviction removes exactly the oldest entry -/

/-- When one entry is strictly older than every other, the eviction scan
returns exactly that entry. -/
theorem minByCreated_of_strict (es : List (String × CEntry)) (m : String × CEntry)
    (hm : m ∈ es) (hmin : ∀ p ∈ es, p ≠ m → m.2.created < p.2.created) :
    minByCreated es = some m := by
  cases hq : minByCreated es with
  | none =>
    have hne : es ≠ [] := by
      intro h0
      rw [h0] at hm
      simp at hm
    have := minByCreated_isSome es hne
    rw [hq] at this
    simp at this
  | some r =>
    obtain ⟨hrmem, hrall⟩ := minByCreated_spec es r hq
    by_cases hrm : r = m
    · rw [hrm]
    · have h1 : m.2.created < r.2.created := hmin r hrmem hrm
      have h2 : r.2.created ≤ m.2.created := hrall m hm
      omega

/-- C8: on a cache holding exactly `max_size` entries, a `set` with a new
key and positive TTL removes exactly the entry with the (unique) smallest
`created` timestamp, increments `evictions` by exactly 1, leaves every
other counter untouched, and appends the new entry. -/
theorem c8_evicts_oldest (c : Cache) (k : String) (d : Message) (ttl now : Int)
    (m : String × CEntry)
    (hfull : c.entries.length = c.maxSize)
    (hnew : c.entries.lookup k = none)
    (httl : 0 < ttl)
    (hm : m ∈ c.entries)
    (hmin : ∀ p ∈ c.entries, p ≠ m → m.2.created < p.2.created) :
    cacheSet c k d ttl now =
      { c with entries := delKey c.entries m.1 ++ [(k, ⟨d, now + ttl, now⟩)]
               evictions := c.evictions + 1 } := by
  unfold cacheSet
  rw [if_neg (by omega)]
  dsimp only
  rw [if_pos ⟨by omega, by rw [hnew]; rfl⟩]
  unfold evictOldest
  rw [minByCreated_of_strict c.entries m hm hmin]
  dsimp only
  unfold setKey
  rw [if_neg (by rw [lookup_delKey_none c.entries k m.1 hnew]; simp)]

/-- Witness for C8: on `cache2full` (capacity 2, both slots used, `b` the
oldest), inserting `c` evicts exactly `b` and bumps `evictions` to 1. -/
theorem c8_evicts_oldest_witness :
    cacheSet cache2full ("c") msg0 7 20 =
      { cache2full with
          entries := delKey cache2full.entries ("b") ++ [("c", ⟨msg0, 27, 20⟩)]
          evictions := cache2full.evictions + 1 } :=
  c8_evicts_oldest cache2full ("c") msg0 7 20 ("b", ⟨msg0, 100, 5⟩) (by decide) (by decide)
    (by decide) (by decide) (by decide)

/-! ### C7 — what the resolver caches -/

/-- C7: after a cache miss (`get` returned `None`, leaving cache state
`c'`): a reply that decodes with status NOERROR is stored — the final
cache state is exactly `set` of the metadata-tagged response under the
minimum TTL over answer+authority+additional records (300 when there are
none; a zero minimum makes `set` a no-op); a transport failure or a decode
exception returns an error with cache state `c'` untouched; and the miss
step itself never adds an entry, so a failed query stores nothing. -/
theorem c7_resolver_caching (c : Cache) (domain : List Nat) (rt server : String)
    (tid : Nat) (now : Int) (fuel : Nat) (c' : Cache)
    (hmiss : cacheGet c (cacheKey domain rt server) now = (none, c')) :
    (∀ qp rp m0, buildQuery domain rt tid = .ok qp →
      parseResponse rp (some tid) fuel = .ok m0 →
      (tagMsg m0 domain rt server).status = "NOERROR" →
      clientQuery (some c) domain rt server tid (some rp) now fuel =
        .ok (tagMsg m0 domain rt server)
          (some (cacheSet c' (cacheKey domain rt server) (tagMsg m0 domain rt server)
            (minimumTTL (tagMsg m0 domain rt server) : Int) now))) ∧
    (∀ qp, buildQuery domain rt tid = .ok qp →
      clientQuery (some c) domain rt server tid none now fuel =
        .err .transportFailed (some c')) ∧
    (∀ qp rp e, buildQuery domain rt tid = .ok qp →
      parseResponse rp (some tid) fuel = .exn e →
      clientQuery (some c) domain rt server tid (some rp) now fuel =
        .err (.parseFailed e) (some c')) ∧
    (c'.entries.length ≤ c.entries.length ∧
      ∀ k, (c'.entries.lookup k).isSome → (c.entries.lookup k).isSome) := by
  have hnet : ∀ transport,
      clientQuery (some c) domain rt server tid transport now fuel =
        clientQueryNet (some c') (cacheKey domain rt server) domain rt server tid
          transport now fuel := by
    intro transport
    simp only [clientQuery]
    rw [hmiss]
  refine ⟨?_, ?_, ?_, ?_⟩
  · intro qp rp m0 hqp hparse hst
    rw [hnet (some rp)]
    simp only [clientQueryNet]
    rw [hqp, hparse]
    dsimp only
    rw [if_pos hst]
    by_cases ht : 0 < minimumTTL (tagMsg m0 domain rt server)
    · rw [if_pos ht]
    · rw [if_neg ht]
      have ht0 : minimumTTL (tagMsg m0 domain rt server) = 0 := by omega
      rw [ht0]
      rfl
  · intro qp hqp
    rw [hnet none]
    simp only [clientQueryNet]
    rw [hqp]
  · intro qp rp e hqp hparse
    rw [hnet (some rp)]
    simp only [clientQueryNet]
    rw [hqp, hparse]
  · unfold cacheGet at hmiss
    cases hl : c.entries.lookup (cacheKey domain rt server) with
    | none =>
      rw [hl] at hmiss
      dsimp only at hmiss
      have hc' : c' = { c with misses := c.misses + 1 } := by
        injection hmiss with h1 h2
        exact h2.symm
      rw [hc']
      exact ⟨le_refl _, fun k h => h⟩
    | some e =>
      rw [hl] at hmiss
      dsimp only at hmiss
      split at hmiss
      · have hc' : c' = { c with
            entries := delKey c.entries (cacheKey domain rt server),
            misses := c.misses + 1 } := by
          injection hmiss with h1 h2
          exact h2.symm
        rw [hc']
        refine ⟨delKey_length_le _ _, fun k h => ?_⟩
        by_contra hnone
        have hn2 : c.entries.lookup k = none := by
          cases hx : c.entries.lookup k with
          | none => rfl
          | some v => rw [hx] at hnone; simp at hnone
        rw [lookup_delKey_none c.entries k _ hn2] at h
        simp at h
      · injection hmiss with h1 h2
        simp at h1

/-- Witness for C7: a concrete run — empty cache of capacity 10, query for
`a`, reply `ansPacket` (NOERROR, one A record with TTL 60) — caches the
tagged response under TTL 60 after counting the miss. -/
theorem c7_resolver_caching_witness :
    ∃ m0, parseResponse ansPacket (some 1) 40 = .ok m0 ∧
      clientQuery (some (cacheInit 10)) [97] ("A") ("s") 1 (some ansPacket) 50 40 =
        .ok (tagMsg m0 [97] ("A") ("s"))
          (some (cacheSet { cacheInit 10 with misses := 1 } (cacheKey [97] ("A") ("s"))
            (tagMsg m0 [97] ("A") ("s"))
            (minimumTTL (tagMsg m0 [97] ("A") ("s")) : Int) 50)) := by
  refine ⟨_, rfl, ?_⟩
  exact (c7_resolver_caching (cacheInit 10) [97] ("A") ("s") 1 50 40
    { cacheInit 10 with misses := 1 } (by decide)).1
    ((buildQuery [97] ("A") 1).toOption.getD [])
    ansPacket _ rfl rfl (by decide)

/-! ### C3 — `get` returns a shallow copy, not a deep one -/

/-- Every initial segment bound is below the running maximum. -/
theorem foldl_max_init_le (l : List Nat) : ∀ b, b ≤ l.foldl max b := by
  induction l with
  | nil => intro b; exact le_refl _
  | cons x rest ih =>
    intro b
    simp only [List.foldl_cons]
    exact le_trans (le_max_left b x) (ih _)

/-- Every member is below the running maximum. -/
theorem mem_le_foldl_max (l : List Nat) : ∀ b a, a ∈ l → a ≤ l.foldl max b := by
  induction l with
  | nil => intro b a ha; simp at ha
  | cons x rest ih =>
    intro b a ha
    simp only [List.foldl_cons]
    rcases List.mem_cons.mp ha with rfl | ha'
    · exact le_trans (le_max_right b a) (foldl_max_init_le rest _)
    · exact ih _ a ha'

/-- A successful address lookup means the address is bound in the heap. -/
theorem lookup_some_mem (h : Heap) (a : Nat) (o : PyObj) (hx : h.lookup a = some o) :
    a ∈ h.map Prod.fst := by
  induction h with
  | nil => simp at hx
  | cons p rest ih =>
    obtain ⟨b, c⟩ := p
    have hlc : List.lookup a ((b, c) :: rest) =
        match a == b with
        | true => some c
        | false => List.lookup a rest := rfl
    cases hab : (a == b) with
    | true =>
      have hab2 : a = b := by simpa using hab
      simp [hab2]
    | false =>
      rw [hlc, hab] at hx
      simp only [List.map_cons, List.mem_cons]
      exact .inr (ih hx)

/-- The address `dict.copy()` allocates is unused in the current heap. -/
theorem freshAddr_lookup_none (h : Heap) : h.lookup (freshAddr h) = none := by
  cases hx : h.lookup (freshAddr h) with
  | none => rfl
  | some o =>
    have hmem := lookup_some_mem h _ _ hx
    have hle := mem_le_foldl_max (h.map Prod.fst) 0 _ hmem
    unfold freshAddr at hle
    omega

/-- Lookups already bound are unaffected by appending fresh objects. -/
theorem lookup_append_some (h t : Heap) (a : Nat) (v : PyObj)
    (hv : h.lookup a = some v) : (h ++ t).lookup a = some v := by
  induction h with
  | nil => simp at hv
  | cons p rest ih =>
    obtain ⟨b, c⟩ := p
    have hlc : List.lookup a ((b, c) :: rest) =
        match a == b with
        | true => some c
        | false => List.lookup a rest := rfl
    have hlc2 : List.lookup a ((b, c) :: (rest ++ t)) =
        match a == b with
        | true => some c
        | false => List.lookup a (rest ++ t) := rfl
    cases hab : (a == b) with
    | true =>
      rw [hlc, hab] at hv
      rw [List.cons_append, hlc2, hab]
      exact hv
    | false =>
      rw [hlc, hab] at hv
      rw [List.cons_append, hlc2, hab]
      exact ih hv

/-- Appending a binding for an unbound address makes it visible. -/
theorem lookup_append_fresh (h : Heap) (a : Nat) (o : PyObj)
    (hn : h.lookup a = none) : (h ++ [(a, o)]).lookup a = some o := by
  induction h with
  | nil => simp [List.lookup]
  | cons p rest ih =>
    obtain ⟨b, c⟩ := p
    have hlc : List.lookup a ((b, c) :: rest) =
        match a == b with
        | true => some c
        | false => List.lookup a rest := rfl
    have hlc2 : List.lookup a ((b, c) :: (rest ++ [(a, o)])) =
        match a == b with
        | true => some c
        | false => List.lookup a (rest ++ [(a, o)]) := rfl
    cases hab : (a == b) with
    | true =>
      rw [hlc, hab] at hn
      simp at hn
    | false =>
      rw [hlc, hab] at hn
      rw [List.cons_append, hlc2, hab]
      exact ih hn

/-- Counterexample to C3 as stated: in the heap model, `get` on `hcache0`
returns `entry['data'].copy()` — a new dict at address 3 whose `answers`
field is the *same* reference (address 2) as the cached entry's, so a
component of the returned value is shared; appending to that shared list
through the returned value changes the object the cached entry points at
(it held `[]` in the original heap). -/
theorem c3_counterexample :
    (hGet heap0 hcache0 ("k") 10).2.2 = some 3 ∧
    dictField (hGet heap0 hcache0 ("k") 10).1 3 "answers" =
      dictField (hGet heap0 hcache0 ("k") 10).1 1 "answers" ∧
    dictField (hGet heap0 hcache0 ("k") 10).1 1 "answers" = some (.vref 2) ∧
    heapGet (listAppendAt (hGet heap0 hcache0 ("k") 10).1 2 (.vstr "x")) 2 =
      some (.plist [.vstr "x"]) ∧
    heapGet heap0 2 = some (.plist []) := by
  refine ⟨rfl, rfl, rfl, ?_, rfl⟩
  decide

/-- C3 as amended: `get` returns a *shallow* copy — a dict at a fresh
address (unbound in the old heap and distinct from the stored dict), whose
top-level fields are identical to the stored dict's fields.  Top-level
mutation of the returned dict therefore cannot affect the cache, but any
reference-valued field (the question/answer/authority/additional lists) is
shared with the internal entry, and in-place mutation through it mutates
the cached entry, as the counterexample shows. -/
theorem c3_get_shallow_copy (h : Heap) (c : HCache) (k : String) (now : Int)
    (e : HEntry) (fs : List (String × PyVal))
    (hl : c.entries.lookup k = some e)
    (hnexp : ¬ (e.expires ≤ now))
    (hdata : heapGet h e.dataAddr = some (.pdict fs)) :
    ∃ a', hGet h c k now = (h ++ [(a', .pdict fs)], { c with hits := c.hits + 1 }, some a') ∧
      heapGet h a' = none ∧ a' ≠ e.dataAddr ∧
      heapGet (h ++ [(a', .pdict fs)]) a' = some (.pdict fs) ∧
      heapGet (h ++ [(a', .pdict fs)]) e.dataAddr = some (.pdict fs) := by
  refine ⟨freshAddr h, ?_, freshAddr_lookup_none h, ?_, ?_, ?_⟩
  · unfold hGet
    rw [hl]
    dsimp only
    rw [if_neg hnexp]
    unfold dictCopy
    rw [hdata]
  · intro heq
    have h2 := freshAddr_lookup_none h
    rw [heq] at h2
    rw [show heapGet h e.dataAddr = h.lookup e.dataAddr from rfl, h2] at hdata
    exact nomatch hdata
  · exact lookup_append_fresh h _ _ (freshAddr_lookup_none h)
  · exact lookup_append_some h _ _ _ hdata

/-- Witness for the amended C3 on the concrete heap: the copy lands at the
fresh address 3 with the same fields as the stored dict at address 1. -/
theorem c3_get_shallow_copy_witness :
    ∃ a', hGet heap0 hcache0 ("k") 10 =
        (heap0 ++ [(a', .pdict [("status", .vstr "NOERROR"), ("answers", .vref 2)])],
          { hcache0 with hits := 1 }, some a') ∧
      heapGet heap0 a' = none ∧ a' ≠ 1 ∧
      heapGet (heap0 ++ [(a', .pdict [("status", .vstr "NOERROR"), ("answers", .vref 2)])]) a' =
        some (.pdict [("status", .vstr "NOERROR"), ("answers", .vref 2)]) ∧
      heapGet (heap0 ++ [(a', .pdict [("status", .vstr "NOERROR"), ("answers", .vref 2)])]) 1 =
        some (.pdict [("status", .vstr "NOERROR"), ("answers", .vref 2)]) :=
  c3_get_shallow_copy heap0 hcache0 ("k") 10 ⟨1, 100, 0⟩
    [("status", .vstr "NOERROR"), ("answers", .vref 2)] (by decide) (by decide) (by decide)

end DNSQueryTool
